import Mathlib

/-!
Shallow embedding of the bam-scraper repository (src/scraper.py, src/excel.py,
src/plotting.py, src/test.py) and proofs checking the frozen claims.

Conventions of the embedding:
* Python floats are modelled as exact rationals.
* Byte strings are lists of naturals; text strings are Lean strings, but all
  text processing (lower-casing, stripping, substring search) is done on
  lists of characters with executable definitions, mirroring the ASCII
  behaviour of the Python string methods used by the source.
* pandas date parsing (pd.to_datetime with dayfirst, errors coerce) is an
  external collaborator; it is modelled as an explicit function parameter
  from strings to optional day numbers.
* The sqlite seen-table is an association list keyed by strings, with the
  REPLACE INTO semantics of set_seen_hash modelled as replace-or-insert.
* sha256 is an external primitive; the pipeline is parameterised by the
  hash function, so every theorem holds for all hash functions.
-/

namespace BKAM

/-! ### Character list helpers (ASCII models of the Python string methods) -/

/-- Model of the Python substring test: needle in hay, on character lists. -/
def listIn (n : List Char) : List Char → Bool
  | [] => n.isEmpty
  | c :: t => n.isPrefixOf (c :: t) || listIn n t

/-- ASCII lower-casing of one character, model of str.lower on the
ASCII-only strings the scraper handles. -/
def lowerChar (c : Char) : Char :=
  if 'A' ≤ c ∧ c ≤ 'Z' then Char.ofNat (c.toNat + 32) else c

/-- Model of str.lower. -/
def lowerL (l : List Char) : List Char := l.map lowerChar

/-- Model of str.strip (drop leading and trailing whitespace). -/
def stripL (l : List Char) : List Char :=
  ((l.dropWhile Char.isWhitespace).reverse.dropWhile Char.isWhitespace).reverse

/-- Model of str.endswith. -/
def endsWithL (suffix hay : List Char) : Bool := suffix.isSuffixOf hay

/-- Model of str.startswith. -/
def startsWithL (pre hay : List Char) : Bool := pre.isPrefixOf hay

/-! ### Scraping: extract_csv_url (src/scraper.py lines 69-79) -/

/-- The fixed page URL from src/scraper.py. -/
def PAGE_URL : String :=
  "https://www.bkam.ma/Marches/Principaux-indicateurs/Marche-obligataire/Marche-des-bons-de-tresor/Marche-secondaire/Taux-de-reference-des-bons-du-tresor"

/-- One hyperlink element of the fetched page: its href attribute and its
visible text (a.get_text()), as handed to the scanning loop by BeautifulSoup. -/
structure Anchor where
  href : String
  text : String
deriving DecidableEq

/-- Model of extract_csv_url from src/scraper.py.  The loop body keeps the
two nested if statements of the source: when the outer test holds but the
inner one fails, the loop continues with the next anchor.  urljoin is the
external URL resolver (urllib.parse.urljoin), passed as a parameter. -/
def extract_csv_url (urljoin : String → String → String) : List Anchor → Option String
  | [] => none
  | a :: rest =>
    let text := lowerL (stripL a.text.toList)
    let href := a.href
    if listIn "csv".toList (lowerL href.toList) || listIn "csv".toList text then
      if listIn "telechargement".toList text || listIn "download".toList text
          || endsWithL ".csv".toList (lowerL href.toList) then
        some (if startsWithL "http".toList href.toList then href
              else urljoin PAGE_URL href)
      else extract_csv_url urljoin rest
    else extract_csv_url urljoin rest

/-! ### Scraping: download_csv (src/scraper.py lines 81-89) -/

/-- The response handed back by requests.get: status code, the Content-Type
header (empty string when absent, as in headers.get with default), and the
body bytes. -/
structure HttpResponse where
  status : Nat
  contentType : String
  content : List Nat
deriving DecidableEq

/-- Model of download_csv from src/scraper.py.  The head sniff decodes the
first 256 bytes permissively and looks for a comma or a semicolon; since
both are ASCII bytes (44 and 59) that survive a permissive utf-8 decode
exactly when present among the bytes, the sniff is modelled directly on
the byte list. -/
def download_csv (r : HttpResponse) : Option (List Nat) :=
  if r.status = 200 && listIn "csv".toList (lowerL r.contentType.toList) then
    some r.content
  else if (r.content.take 256).contains 44 || (r.content.take 256).contains 59 then
    some r.content
  else none

/-! ### Scraping: parse_reference_table (src/scraper.py lines 91-95) -/

/-- One table extracted from the page by pd.read_html: its column count
(df.shape[1], the sort key of the source) and its cells. -/
structure PTable where
  ncols : Nat
  cells : List (List String)
deriving DecidableEq

/-- Model of parse_reference_table from src/scraper.py: the list of parsed
tables is sorted by column count, descending, with the stable sort of
Python list.sort (ties keep document order), and the first table is taken.
pd.read_html raises when the page holds no table, hence the Option. -/
def parse_reference_table (dfs : List PTable) : Option PTable :=
  (dfs.insertionSort (fun a b => b.ncols ≤ a.ncols)).head?

/-! ### DB state (src/scraper.py lines 39-58) -/

/-- Model of get_seen_hash: point lookup by key in the seen table. -/
def get_seen_hash (db : List (String × List Nat)) (key : String) : Option (List Nat) :=
  (db.find? (fun p => p.1 == key)).map (fun p => p.2)

/-- Model of set_seen_hash: REPLACE INTO semantics, replace-or-insert by key. -/
def set_seen_hash (db : List (String × List Nat)) (value : List Nat) (key : String) :
    List (String × List Nat) :=
  (key, value) :: db.filter (fun p => p.1 != key)

/-! ### Main update logic (src/scraper.py lines 116-151) -/

/-- Observable events of one run of update_reference_data, in program order:
a successful artifact save (save_reference_data returning the clean path),
a hash persistence (set_seen_hash), the notification, and a failed save
attempt (save_reference_data raising). -/
inductive Event where
  | saved : String → Event
  | setHash : String → List Nat → Event
  | notified : Event
  | saveFailed : Event
deriving DecidableEq

/-- The upstream world one run of update_reference_data observes: the
result of extract_csv_url on the fetched page, the response obtained when
downloading that URL (meaningful only when a URL was found), the canonical
bytes of the fallback HTML table (df.to_csv of parse_reference_table), and
whether save_reference_data succeeds on this run.  Byte-identical upstream
content corresponds to a fixed value of the first three fields. -/
structure Upstream where
  csvUrl : Option String
  csvResponse : HttpResponse
  tableBytes : List Nat
  saveOk : Bool
deriving DecidableEq

/-- The clean-file path returned by save_reference_data for a tag. -/
def savePath (tag : String) : String := "out_bkam/bkam_clean_" ++ tag ++ ".csv"

/-- The common tail of both branches of update_reference_data: compare the
content hash with the persisted one under the branch key, return None on a
dedupe hit, otherwise save the artifact, persist the hash, notify and
return the clean path.  A failing save raises, leaving the db untouched
and the hash unpersisted.  Returns (outcome, final db, event trace). -/
def runBranch (hashFn : List Nat → List Nat) (db : List (String × List Nat))
    (dedupe : Bool) (bytes : List Nat) (key tag : String) (saveOk : Bool) :
    Except Unit (Option String) × List (String × List Nat) × List Event :=
  if dedupe = true ∧ get_seen_hash db key = some (hashFn bytes) then
    (Except.ok none, db, [])
  else if saveOk then
    (Except.ok (some (savePath tag)),
     set_seen_hash db (hashFn bytes) key,
     [Event.saved (savePath tag), Event.setHash key (hashFn bytes), Event.notified])
  else
    (Except.error (), db, [Event.saveFailed])

/-- Model of update_reference_data from src/scraper.py.  The CSV branch is
taken when extract_csv_url found a URL and download_csv accepted the
response with truthy (non-empty) bytes; otherwise the run falls through to
the HTML-table branch.  pd.read_csv on accepted bytes is assumed to
succeed (its failure is a transport-level abort outside the claims). -/
def update_reference_data (hashFn : List Nat → List Nat) (env : Upstream)
    (db : List (String × List Nat)) (dedupe : Bool) :
    Except Unit (Option String) × List (String × List Nat) × List Event :=
  match env.csvUrl with
  | some _ =>
    match download_csv env.csvResponse with
    | some raw =>
      if raw ≠ [] then runBranch hashFn db dedupe raw "reference_csv_hash" "csv" env.saveOk
      else runBranch hashFn db dedupe env.tableBytes "reference_html_hash" "html" env.saveOk
    | none => runBranch hashFn db dedupe env.tableBytes "reference_html_hash" "html" env.saveOk
  | none => runBranch hashFn db dedupe env.tableBytes "reference_html_hash" "html" env.saveOk

/-- The active source of a run: the branch key and the bytes whose hash is
compared and persisted (raw CSV bytes on the CSV branch, the serialized
table on the HTML branch). -/
def activeSource (env : Upstream) : String × List Nat :=
  match env.csvUrl with
  | some _ =>
    match download_csv env.csvResponse with
    | some raw =>
      if raw ≠ [] then ("reference_csv_hash", raw)
      else ("reference_html_hash", env.tableBytes)
    | none => ("reference_html_hash", env.tableBytes)
  | none => ("reference_html_hash", env.tableBytes)

/-- The HTML fallback path of update_reference_data on its own. -/
def htmlFallback (hashFn : List Nat → List Nat) (env : Upstream)
    (db : List (String × List Nat)) (dedupe : Bool) :
    Except Unit (Option String) × List (String × List Nat) × List Event :=
  runBranch hashFn db dedupe env.tableBytes "reference_html_hash" "html" env.saveOk

/-! ### Record cleaning (src/excel.py lines 31-71 and src/plotting.py lines 14-31) -/

/-- One raw row of the BKAM CSV as read with header=None and the fixed
column names of the source: [maturity, col1, rate, ref_date]. -/
structure RawRecord where
  maturity : String
  col1 : String
  rate : String
  ref_date : String
deriving DecidableEq

/-- One cleaned record: parsed maturity and reference dates as day numbers,
time to maturity in years and the rate in percent. -/
structure CleanRecord where
  maturityDate : Int
  refDate : Int
  ttmYears : ℚ
  ratePct : ℚ
deriving DecidableEq

/-- Rate normalization of both cleaners: replace the decimal comma by a
point, delete percent signs and non-breaking spaces, strip whitespace.
The first replacement is character-for-character and the two deletions
remove single characters, so the chain of str.replace calls is modelled as
a map followed by a filter on the character list. -/
def normRate (s : String) : List Char :=
  stripL (((s.toList.map (fun c => if c = ',' then '.' else c)).filter
    (fun c => c != '%' && c != Char.ofNat 160)))

/-- One or more ASCII digits. -/
def digits1 (l : List Char) : Bool := !l.isEmpty && l.all Char.isDigit

/-- The anchored rate pattern of both cleaners: digits, optionally a point
followed by digits.  Applied after stripping, so the dollar anchor before a
trailing newline cannot fire on anything the pattern itself would reject. -/
def rateMatches (l : List Char) : Bool :=
  match l.splitOn '.' with
  | [a] => digits1 a
  | [a, b] => digits1 a && digits1 b
  | _ => false

/-- Numeric value of a digit list. -/
def natOfDigits (l : List Char) : Nat :=
  l.foldl (fun acc c => acc * 10 + (c.toNat - 48)) 0

/-- Model of float() on a string accepted by the rate pattern. -/
def parseRate (l : List Char) : ℚ :=
  match l.splitOn '.' with
  | [a] => (natOfDigits a : ℚ)
  | [a, b] => (natOfDigits a : ℚ) + (natOfDigits b : ℚ) / (10 : ℚ) ^ b.length
  | _ => 0

/-- Per-row cleaning shared by both cleaners once the reference date is
fixed: parse the maturity date; a row whose maturity fails to parse has a
NaN time-to-maturity and is dropped by dropna.  The time to maturity is
the day difference divided by 365. -/
def cleanRows (pdate : String → Option Int) (refd : Int) (rows : List RawRecord) :
    List CleanRecord :=
  rows.filterMap (fun r =>
    (pdate r.maturity).map (fun m =>
      { maturityDate := m, refDate := refd,
        ttmYears := ((m - refd : Int) : ℚ) / 365,
        ratePct := parseRate (normRate r.rate) }))

/-- Model of _read_and_clean from src/excel.py.  pdate models
pd.to_datetime with dayfirst and errors coerce.  The rate filter runs
first; iloc[0] on an empty filtered frame raises (None result).  An
unparseable reference date makes every time-to-maturity NaN, so dropna
empties the output.  Rows are sorted ascending by time to maturity and
rows with negative time to maturity are dropped. -/
def read_and_clean (pdate : String → Option Int) (rows : List RawRecord) :
    Option (List CleanRecord) :=
  match rows.filter (fun r => rateMatches (normRate r.rate)) with
  | [] => none
  | r0 :: rest =>
    match pdate r0.ref_date with
    | none => some []
    | some refd =>
      some (((cleanRows pdate refd (r0 :: rest)).insertionSort
        (fun a b => a.ttmYears ≤ b.ttmYears)).filter
          (fun c => decide (0 ≤ c.ttmYears)))

/-- Model of the inline cleaning portion of plot_yield_curve from
src/plotting.py: identical to read_and_clean except that no filter on
negative time to maturity is applied after dropna and sorting. -/
def plotClean (pdate : String → Option Int) (rows : List RawRecord) :
    Option (List CleanRecord) :=
  match rows.filter (fun r => rateMatches (normRate r.rate)) with
  | [] => none
  | r0 :: rest =>
    match pdate r0.ref_date with
    | none => some []
    | some refd =>
      some ((cleanRows pdate refd (r0 :: rest)).insertionSort
        (fun a b => a.ttmYears ≤ b.ttmYears))

/-! ### Tenor interpolation (src/excel.py lines 74-97) -/

/-- One interpolated tenor point: label, requested tenor in years, rate. -/
structure TenorPoint where
  label : String
  tenorYears : ℚ
  ratePct : ℚ
deriving DecidableEq

/-- The fixed tenor mapping DEFAULT_TENORS_YEARS of src/excel.py, in its
declared order. -/
def DEFAULT_TENORS_YEARS : List (String × ℚ) :=
  [("13 semaines", 13 / 52), ("26 semaines", 26 / 52), ("52 semaines", 1),
   ("2 ans", 2), ("5 ans", 5), ("10 ans", 10), ("15 ans", 15),
   ("20 ans", 20), ("30 ans", 30)]

/-- Model of np.interp t xp fp on a list of (x, y) pairs sorted ascending
by x: left of the first knot the first y is returned, right of the last
knot the last y; an exact hit on duplicated knots takes the y of the last
knot with that x, as the numpy binary search does; strictly between two
knots the value is linear. -/
def npInterp (t : ℚ) : List (ℚ × ℚ) → ℚ
  | [] => 0
  | [p] => p.2
  | p :: q :: rest =>
    if t < p.1 then p.2
    else if q.1 ≤ t then npInterp t (q :: rest)
    else p.2 + (q.2 - p.2) * (t - p.1) / (q.1 - p.1)

/-- Model of np.clip: minimum(hi, maximum(t, lo)). -/
def npClip (t lo hi : ℚ) : ℚ := min hi (max t lo)

/-- Minimum of a list of rationals (x.min of a non-empty numpy array). -/
def listMin : List ℚ → ℚ
  | [] => 0
  | x :: xs => xs.foldl min x

/-- Maximum of a list of rationals (x.max of a non-empty numpy array). -/
def listMax : List ℚ → ℚ
  | [] => 0
  | x :: xs => xs.foldl max x

/-- The sorted (x, y) knot list of _interpolate_tenors: the cleaned series
as (time-to-maturity, rate) pairs ordered ascending by maturity, modelling
lines 79-84 of src/excel.py (np.argsort and the reordering of x and y). -/
def ptsOf (df : List CleanRecord) : List (ℚ × ℚ) :=
  (df.map (fun c => (c.ttmYears, c.ratePct))).insertionSort (fun a b => a.1 ≤ b.1)

/-- Model of _interpolate_tenors from src/excel.py: with fewer than two
distinct time-to-maturity values the result is empty; otherwise the
cleaned series is sorted by maturity (np.argsort), each requested tenor is
clipped to the observed range and linearly interpolated, and one row per
mapping entry is emitted in the declared order, carrying the unclipped
tenor years. -/
def interpolate_tenors (df : List CleanRecord) (tenors : List (String × ℚ)) :
    List TenorPoint :=
  if df = [] ∨ (df.map (fun c => c.ttmYears)).dedup.length < 2 then []
  else
    tenors.map (fun lt =>
      { label := lt.1, tenorYears := lt.2,
        ratePct := npInterp (npClip lt.2 (listMin ((ptsOf df).map (fun p => p.1)))
          (listMax ((ptsOf df).map (fun p => p.1)))) (ptsOf df) })

/-! ### Nice axis computation (src/excel.py lines 103-125) -/

/-- The candidate step list of _nice_axis. -/
def niceSteps : List ℚ :=
  [1/10, 2/10, 1/4, 1/2, 1, 2, 5/2, 5, 10]

/-- Model of the Python min with key |s - ideal| over a non-empty list
given as head and tail: the first candidate attaining the minimum wins. -/
def argminAbs (ideal : ℚ) (x : ℚ) (xs : List ℚ) : ℚ :=
  xs.foldl (fun b a => if |a - ideal| < |b - ideal| then a else b) x

/-- Model of _nice_axis from src/excel.py.  Returns (vmin, vmax, step).
A degenerate range (min equal to max) is first expanded symmetrically by
max(1, |min| / 10) on each side; the ideal step is span / max(2, ticks);
the chosen step is the candidate nearest to the ideal; the bounds are the
floor and ceiling of the inputs in units of the step. -/
def nice_axis (min_v max_v : ℚ) (target_ticks : Nat) : ℚ × ℚ × ℚ :=
  let mn := if min_v = max_v then min_v - max 1 (|min_v| / 10) else min_v
  let mx := if min_v = max_v then max_v + max 1 (|min_v| / 10) else max_v
  let span := mx - mn
  let ideal := span / ((max 2 target_ticks : Nat) : ℚ)
  let step := argminAbs ideal (1/10) [2/10, 1/4, 1/2, 1, 2, 5/2, 5, 10]
  ((⌊mn / step⌋ : ℤ) * step, (⌈mx / step⌉ : ℤ) * step, step)

/-! ### Property-checking definitions used by the claims -/

/-- Temporal check on an event trace: scanning left to right with a flag
recording whether an artifact save has succeeded so far, every hash
persistence event must find the flag set. -/
def hashAfterSaveOK : Bool → List Event → Bool
  | _, [] => true
  | _, Event.saved _ :: rest => hashAfterSaveOK true rest
  | seen, Event.setHash _ _ :: rest => seen && hashAfterSaveOK seen rest
  | seen, _ :: rest => hashAfterSaveOK seen rest

/-- The first table of maximal column count in a head-and-tail list. -/
def firstMaxT (x : PTable) : List PTable → PTable
  | [] => x
  | y :: ys =>
    let m := firstMaxT y ys
    if x.ncols < m.ncols then m else x

/-- The step nice_axis chooses for a non-degenerate range. -/
def chooseStep (mn mx : ℚ) (t : Nat) : ℚ :=
  argminAbs ((mx - mn) / ((max 2 t : Nat) : ℚ)) (1/10)
    [2/10, 1/4, 1/2, 1, 2, 5/2, 5, 10]

/-- The candidate condition of claim C6, stated on one anchor: the target
or the stripped lower-cased label contains the token csv, and the label
holds a download or telechargement indicator or the target ends in the
.csv extension (case-insensitively). -/
def candidateA (a : Anchor) : Bool :=
  (listIn "csv".toList (lowerL a.href.toList)
      || listIn "csv".toList (lowerL (stripL a.text.toList)))
    && (listIn "telechargement".toList (lowerL (stripL a.text.toList))
      || listIn "download".toList (lowerL (stripL a.text.toList))
      || endsWithL ".csv".toList (lowerL a.href.toList))

/-! ### Helper lemmas on the persisted state and the update branches -/

lemma get_set_same (db : List (String × List Nat)) (v : List Nat) (k : String) :
    get_seen_hash (set_seen_hash db v k) k = some v := by
  simp [get_seen_hash, set_seen_hash, List.find?]

lemma runBranch_none_iff (hashFn : List Nat → List Nat) (db : List (String × List Nat))
    (d : Bool) (b : List Nat) (k tg : String) (ok : Bool) :
    (runBranch hashFn db d b k tg ok).1 = Except.ok none ↔
      d = true ∧ get_seen_hash db k = some (hashFn b) := by
  unfold runBranch
  split_ifs with h1 h2 <;> simp_all

lemma runBranch_force (hashFn : List Nat → List Nat) (db : List (String × List Nat))
    (b : List Nat) (k tg : String) :
    (runBranch hashFn db false b k tg true).1 = Except.ok (some (savePath tg)) ∧
      get_seen_hash (runBranch hashFn db false b k tg true).2.1 k = some (hashFn b) := by
  unfold runBranch
  rw [if_neg (by simp), if_pos rfl]
  exact ⟨rfl, get_set_same db (hashFn b) k⟩

lemma runBranch_twice (hashFn : List Nat → List Nat) (db : List (String × List Nat))
    (b : List Nat) (k tg tg2 : String) :
    (runBranch hashFn (runBranch hashFn db true b k tg true).2.1 true b k tg2 true).1 =
        Except.ok none ∧
      (runBranch hashFn (runBranch hashFn db true b k tg true).2.1 true b k tg2 true).2.1 =
        (runBranch hashFn db true b k tg true).2.1 := by
  by_cases h : get_seen_hash db k = some (hashFn b)
  · have h1 : (runBranch hashFn db true b k tg true) = (Except.ok none, db, []) := by
      unfold runBranch
      rw [if_pos ⟨rfl, h⟩]
    rw [h1]
    have h2 : (runBranch hashFn db true b k tg2 true) = (Except.ok none, db, []) := by
      unfold runBranch
      rw [if_pos ⟨rfl, h⟩]
    rw [h2]
    exact ⟨rfl, rfl⟩
  · have h1 : (runBranch hashFn db true b k tg true).2.1 =
        set_seen_hash db (hashFn b) k := by
      unfold runBranch
      rw [if_neg (by simp [h]), if_pos rfl]
    rw [h1]
    have h2 : get_seen_hash (set_seen_hash db (hashFn b) k) k = some (hashFn b) :=
      get_set_same db (hashFn b) k
    constructor
    · unfold runBranch
      rw [if_pos ⟨rfl, h2⟩]
    · unfold runBranch
      rw [if_pos ⟨rfl, h2⟩]

lemma runBranch_trace (hashFn : List Nat → List Nat) (db : List (String × List Nat))
    (d : Bool) (b : List Nat) (k tg : String) (ok : Bool) :
    hashAfterSaveOK false (runBranch hashFn db d b k tg ok).2.2 = true ∧
      (ok = false → (runBranch hashFn db d b k tg ok).2.1 = db) := by
  unfold runBranch
  split_ifs with h1 h2 <;> simp_all [hashAfterSaveOK]

lemma update_eq_branch (hashFn : List Nat → List Nat) (env : Upstream)
    (db : List (String × List Nat)) (dedupe : Bool) :
    ∃ tag, update_reference_data hashFn env db dedupe =
      runBranch hashFn db dedupe (activeSource env).2 (activeSource env).1 tag env.saveOk := by
  rcases env with ⟨csvUrl, resp, tb, ok⟩
  cases csvUrl with
  | none => exact ⟨"html", rfl⟩
  | some u =>
    cases h : download_csv resp with
    | none => exact ⟨"html", by simp [update_reference_data, activeSource, h]⟩
    | some raw =>
      by_cases hr : raw = []
      · exact ⟨"html", by simp [update_reference_data, activeSource, h, hr]⟩
      · exact ⟨"csv", by simp [update_reference_data, activeSource, h, hr]⟩

/-! ### Claim C2: idempotence of the pipeline with dedupe enabled -/

/-- C2: against byte-identical upstream content (a fixed Upstream value
whose save step succeeds), a second run of update_reference_data with
dedupe enabled returns the unchanged outcome None and leaves the persisted
state exactly as the first run left it, writing no new hash. -/
theorem C2_update_idempotent (hashFn : List Nat → List Nat) (env : Upstream)
    (db : List (String × List Nat)) (hsave : env.saveOk = true) :
    (update_reference_data hashFn env
        (update_reference_data hashFn env db true).2.1 true).1 = Except.ok none ∧
      (update_reference_data hashFn env
        (update_reference_data hashFn env db true).2.1 true).2.1 =
        (update_reference_data hashFn env db true).2.1 := by
  obtain ⟨tag, heq⟩ := update_eq_branch hashFn env db true
  obtain ⟨tag2, heq2⟩ :=
    update_eq_branch hashFn env (update_reference_data hashFn env db true).2.1 true
  rw [heq2, heq, hsave]
  exact runBranch_twice hashFn db (activeSource env).2 (activeSource env).1 tag tag2

/-- Witness for C2 at a concrete upstream content and an empty state. -/
theorem C2_update_idempotent_witness :
    (Upstream.mk none ⟨200, "", []⟩ [1, 2, 3] true).saveOk = true ∧
      ((update_reference_data (fun b => b) (Upstream.mk none ⟨200, "", []⟩ [1, 2, 3] true)
          (update_reference_data (fun b => b)
            (Upstream.mk none ⟨200, "", []⟩ [1, 2, 3] true) [] true).2.1 true).1 =
          Except.ok none ∧
        (update_reference_data (fun b => b) (Upstream.mk none ⟨200, "", []⟩ [1, 2, 3] true)
          (update_reference_data (fun b => b)
            (Upstream.mk none ⟨200, "", []⟩ [1, 2, 3] true) [] true).2.1 true).2.1 =
          (update_reference_data (fun b => b)
            (Upstream.mk none ⟨200, "", []⟩ [1, 2, 3] true) [] true).2.1) :=
  ⟨rfl, C2_update_idempotent (fun b => b)
    (Upstream.mk none ⟨200, "", []⟩ [1, 2, 3] true) [] rfl⟩

/-! ### Claim C3: hash persistence strictly after successful artifact save -/

/-- C3: in every run of update_reference_data, on the CSV branch and on the
HTML fallback branch alike, every hash-persistence event of the trace is
preceded by a successful artifact save, and a run whose save fails leaves
the persisted state untouched. -/
theorem C3_hash_after_save (hashFn : List Nat → List Nat) (env : Upstream)
    (db : List (String × List Nat)) (dedupe : Bool) :
    hashAfterSaveOK false (update_reference_data hashFn env db dedupe).2.2 = true ∧
      (env.saveOk = false → (update_reference_data hashFn env db dedupe).2.1 = db) := by
  obtain ⟨tag, heq⟩ := update_eq_branch hashFn env db dedupe
  rw [heq]
  have h := runBranch_trace hashFn db dedupe (activeSource env).2 (activeSource env).1
    tag env.saveOk
  exact ⟨h.1, fun hf => h.2 (by rw [hf])⟩

/-- Witness for C3 at a concrete run whose artifact save fails. -/
theorem C3_hash_after_save_witness :
    (Upstream.mk none ⟨200, "", []⟩ [9] false).saveOk = false ∧
      (hashAfterSaveOK false
          (update_reference_data (fun b => b)
            (Upstream.mk none ⟨200, "", []⟩ [9] false) [] true).2.2 = true ∧
        ((Upstream.mk none ⟨200, "", []⟩ [9] false).saveOk = false →
          (update_reference_data (fun b => b)
            (Upstream.mk none ⟨200, "", []⟩ [9] false) [] true).2.1 = [])) :=
  ⟨rfl, C3_hash_after_save (fun b => b) (Upstream.mk none ⟨200, "", []⟩ [9] false) [] true⟩

/-! ### Claim C9: the None outcome happens exactly on a dedupe hit -/

/-- C9: update_reference_data returns the no-change outcome None exactly
when dedupe is enabled and the persisted hash under the active source key
equals the hash of the active content; with dedupe disabled (and the save
step succeeding, as in the batch driver of src/test.py) the run always
saves an artifact, returns its path and overwrites the persisted hash,
even when the content is byte-identical to the previous run. -/
theorem C9_none_iff_dedupe_hit (hashFn : List Nat → List Nat) (env : Upstream)
    (db : List (String × List Nat)) (dedupe : Bool) :
    ((update_reference_data hashFn env db dedupe).1 = Except.ok none ↔
      dedupe = true ∧
        get_seen_hash db (activeSource env).1 = some (hashFn (activeSource env).2)) ∧
      (dedupe = false → env.saveOk = true →
        ∃ p, (update_reference_data hashFn env db dedupe).1 = Except.ok (some p) ∧
          get_seen_hash (update_reference_data hashFn env db dedupe).2.1
            (activeSource env).1 = some (hashFn (activeSource env).2)) := by
  obtain ⟨tag, heq⟩ := update_eq_branch hashFn env db dedupe
  rw [heq]
  constructor
  · exact runBranch_none_iff hashFn db dedupe (activeSource env).2 (activeSource env).1
      tag env.saveOk
  · intro hd hok
    rw [hd, hok]
    exact ⟨savePath tag,
      (runBranch_force hashFn db (activeSource env).2 (activeSource env).1 tag).1,
      (runBranch_force hashFn db (activeSource env).2 (activeSource env).1 tag).2⟩

/-- Witness for C9: a dedupe-disabled run against state that already holds
the hash of the current content still returns a path and overwrites. -/
theorem C9_none_iff_dedupe_hit_witness :
    ((update_reference_data (fun b => b) (Upstream.mk none ⟨200, "", []⟩ [7] true)
        [("reference_html_hash", [7])] false).1 = Except.ok none ↔
      false = true ∧
        get_seen_hash [("reference_html_hash", [7])]
          (activeSource (Upstream.mk none ⟨200, "", []⟩ [7] true)).1 =
          some ((fun b => b) (activeSource (Upstream.mk none ⟨200, "", []⟩ [7] true)).2)) ∧
      (false = false → (Upstream.mk none ⟨200, "", []⟩ [7] true).saveOk = true →
        ∃ p, (update_reference_data (fun b => b) (Upstream.mk none ⟨200, "", []⟩ [7] true)
            [("reference_html_hash", [7])] false).1 = Except.ok (some p) ∧
          get_seen_hash (update_reference_data (fun b => b)
              (Upstream.mk none ⟨200, "", []⟩ [7] true)
              [("reference_html_hash", [7])] false).2.1
            (activeSource (Upstream.mk none ⟨200, "", []⟩ [7] true)).1 =
            some ((fun b => b) (activeSource (Upstream.mk none ⟨200, "", []⟩ [7] true)).2)) :=
  C9_none_iff_dedupe_hit (fun b => b) (Upstream.mk none ⟨200, "", []⟩ [7] true)
    [("reference_html_hash", [7])] false

/-! ### Claim C5: the download acceptance condition -/

/-- C5 counterexample: at status 404 with Content-Type text/csv and a body
holding neither comma nor semicolon, download_csv rejects the response,
although the condition of the claim (content type names CSV, or the sniff
succeeds) holds, since the content-type acceptance also requires status
200 in the code. -/
theorem C5_status_counterexample :
    ¬ (((download_csv ⟨404, "text/csv", [97, 98, 99]⟩).isSome = true) ↔
      (listIn "csv".toList (lowerL ("text/csv" : String).toList) = true ∨
        (([97, 98, 99] : List Nat).take 256).contains 44 = true ∨
        (([97, 98, 99] : List Nat).take 256).contains 59 = true)) := by
  decide

/-- C5 amended: download_csv accepts the response bytes exactly when the
status is 200 and the content type names csv, or the first 256 bytes hold
a comma or a semicolon; and whenever download_csv rejects, the caller
update_reference_data falls through to the HTML-table branch without
raising. -/
theorem C5_accept_iff (r : HttpResponse) :
    ((download_csv r).isSome = true ↔
      ((r.status = 200 ∧ listIn "csv".toList (lowerL r.contentType.toList) = true) ∨
        (r.content.take 256).contains 44 = true ∨
        (r.content.take 256).contains 59 = true)) ∧
    (∀ (hashFn : List Nat → List Nat) (db : List (String × List Nat)) (d : Bool)
        (u : String) (tb : List Nat) (ok : Bool),
      download_csv r = none →
      update_reference_data hashFn (Upstream.mk (some u) r tb ok) db d =
        htmlFallback hashFn (Upstream.mk (some u) r tb ok) db d) := by
  constructor
  · unfold download_csv
    split_ifs with h1 h2 <;>
      simp_all [Bool.and_eq_true, Bool.or_eq_true, decide_eq_true_eq]
  · intro hashFn db d u tb ok hnone
    simp [update_reference_data, htmlFallback, hnone]

/-- Witness for C5 at a concrete rejected download. -/
theorem C5_accept_iff_witness :
    download_csv ⟨404, "text/csv", [97, 98, 99]⟩ = none ∧
      update_reference_data (fun b => b)
        (Upstream.mk (some "u") ⟨404, "text/csv", [97, 98, 99]⟩ [5] true) [] true =
        htmlFallback (fun b => b)
          (Upstream.mk (some "u") ⟨404, "text/csv", [97, 98, 99]⟩ [5] true) [] true :=
  ⟨by decide,
    (C5_accept_iff ⟨404, "text/csv", [97, 98, 99]⟩).2 (fun b => b) [] true "u" [5] true
      (by decide)⟩

/-! ### Claim C6: selection of the CSV link -/

/-- C6: extract_csv_url returns none exactly when no anchor qualifies, and
when it returns a URL, that URL is the resolved target of the first anchor
in document order whose target or label contains the token csv and whose
label holds a download or telechargement indicator or whose target ends in
the .csv extension; a relative target is resolved against the page URL,
an absolute one is returned as is. -/
theorem C6_first_qualifying_link (urljoin : String → String → String)
    (links : List Anchor) :
    (extract_csv_url urljoin links = none ↔ ∀ a ∈ links, candidateA a = false) ∧
    (∀ u, extract_csv_url urljoin links = some u →
      ∃ pre a post, links = pre ++ a :: post ∧ candidateA a = true ∧
        (∀ b ∈ pre, candidateA b = false) ∧
        u = (if startsWithL "http".toList a.href.toList then a.href
             else urljoin PAGE_URL a.href)) := by
  induction links with
  | nil => exact ⟨by simp [extract_csv_url], by simp [extract_csv_url]⟩
  | cons a rest ih =>
    by_cases h1 : (listIn "csv".toList (lowerL a.href.toList)
        || listIn "csv".toList (lowerL (stripL a.text.toList))) = true
    · by_cases h2 : (listIn "telechargement".toList (lowerL (stripL a.text.toList))
          || listIn "download".toList (lowerL (stripL a.text.toList))
          || endsWithL ".csv".toList (lowerL a.href.toList)) = true
      · have hc : candidateA a = true := by
          rw [candidateA, Bool.and_eq_true]
          exact ⟨h1, h2⟩
        have hex : extract_csv_url urljoin (a :: rest) =
            some (if startsWithL "http".toList a.href.toList then a.href
                  else urljoin PAGE_URL a.href) := by
          simp only [extract_csv_url]
          rw [if_pos h1, if_pos h2]
        constructor
        · rw [hex]
          constructor
          · intro h
            cases h
          · intro hall
            exact absurd hc (by simp [hall a (by simp)])
        · intro u hu
          rw [hex] at hu
          refine ⟨[], a, rest, rfl, hc, by simp, ?_⟩
          exact (Option.some.inj hu).symm
      · have hca : candidateA a = false := by
          cases hcb : candidateA a with
          | false => rfl
          | true =>
            rw [candidateA, Bool.and_eq_true] at hcb
            exact absurd hcb.2 h2
        have hex : extract_csv_url urljoin (a :: rest) = extract_csv_url urljoin rest := by
          simp only [extract_csv_url]
          rw [if_pos h1, if_neg h2]
        constructor
        · rw [hex, ih.1]
          constructor
          · intro hall b hb
            rcases List.mem_cons.mp hb with rfl | hb'
            · exact hca
            · exact hall b hb'
          · intro hall b hb
            exact hall b (List.mem_cons_of_mem a hb)
        · intro u hu
          rw [hex] at hu
          obtain ⟨pre, b, post, hsplit, hcb, hpre, hres⟩ := ih.2 u hu
          refine ⟨a :: pre, b, post, by rw [List.cons_append, hsplit], hcb, ?_, hres⟩
          intro x hx
          rcases List.mem_cons.mp hx with rfl | hx'
          · exact hca
          · exact hpre x hx'
    · have hca : candidateA a = false := by
        cases hcb : candidateA a with
        | false => rfl
        | true =>
          rw [candidateA, Bool.and_eq_true] at hcb
          exact absurd hcb.1 h1
      have hex : extract_csv_url urljoin (a :: rest) = extract_csv_url urljoin rest := by
        simp only [extract_csv_url]
        rw [if_neg h1]
      constructor
      · rw [hex, ih.1]
        constructor
        · intro hall b hb
          rcases List.mem_cons.mp hb with rfl | hb'
          · exact hca
          · exact hall b hb'
        · intro hall b hb
          exact hall b (List.mem_cons_of_mem a hb)
      · intro u hu
        rw [hex] at hu
        obtain ⟨pre, b, post, hsplit, hcb, hpre, hres⟩ := ih.2 u hu
        refine ⟨a :: pre, b, post, by rw [List.cons_append, hsplit], hcb, ?_, hres⟩
        intro x hx
        rcases List.mem_cons.mp hx with rfl | hx'
        · exact hca
        · exact hpre x hx'

/-- Witness for C6: on a two-anchor page the first qualifying anchor wins
and its relative target is resolved. -/
theorem C6_first_qualifying_link_witness :
    extract_csv_url (fun b r => b ++ r) [Anchor.mk "/p.html" "nothing here",
        Anchor.mk "/d.csv" "Telechargement"] = some (PAGE_URL ++ "/d.csv") ∧
      ∃ pre a post,
        ([Anchor.mk "/p.html" "nothing here", Anchor.mk "/d.csv" "Telechargement"] :
            List Anchor) = pre ++ a :: post ∧ candidateA a = true ∧
          (∀ b ∈ pre, candidateA b = false) ∧
          (PAGE_URL ++ "/d.csv") =
            (if startsWithL "http".toList a.href.toList then a.href
             else (fun b r => b ++ r) PAGE_URL a.href) :=
  ⟨by decide,
    (C6_first_qualifying_link (fun b r => b ++ r)
      [Anchor.mk "/p.html" "nothing here", Anchor.mk "/d.csv" "Telechargement"]).2
      (PAGE_URL ++ "/d.csv") (by decide)⟩

/-! ### Claim C7: the fallback extraction picks the widest table -/

lemma insertionSort_head (x : PTable) (xs : List PTable) :
    ((x :: xs).insertionSort (fun a b => b.ncols ≤ a.ncols)).head? =
      some (firstMaxT x xs) := by
  induction xs generalizing x with
  | nil => rfl
  | cons y ys ih =>
    obtain ⟨rest, hrest⟩ : ∃ rest,
        (y :: ys).insertionSort (fun a b => b.ncols ≤ a.ncols) =
          firstMaxT y ys :: rest := by
      cases hh : (y :: ys).insertionSort (fun a b => b.ncols ≤ a.ncols) with
      | nil =>
        have := ih y
        rw [hh] at this
        cases this
      | cons m rest =>
        have := ih y
        rw [hh] at this
        exact ⟨rest, by rw [Option.some.inj this]⟩
    show (List.orderedInsert _ x ((y :: ys).insertionSort _)).head? =
      some (firstMaxT x (y :: ys))
    rw [hrest]
    by_cases hc : (firstMaxT y ys).ncols ≤ x.ncols
    · rw [List.orderedInsert, if_pos hc]
      simp [firstMaxT, Nat.not_lt.mpr hc]
    · rw [List.orderedInsert, if_neg hc]
      simp [firstMaxT, Nat.not_le.mp hc]

lemma firstMaxT_spec (x : PTable) (xs : List PTable) :
    ∃ pre post, x :: xs = pre ++ firstMaxT x xs :: post ∧
      (∀ u ∈ pre, u.ncols < (firstMaxT x xs).ncols) ∧
      (∀ u ∈ x :: xs, u.ncols ≤ (firstMaxT x xs).ncols) := by
  induction xs generalizing x with
  | nil => exact ⟨[], [], rfl, by simp, by simp [firstMaxT]⟩
  | cons y ys ih =>
    obtain ⟨pre, post, hsplit, hpre, hle⟩ := ih y
    by_cases hc : x.ncols < (firstMaxT y ys).ncols
    · have hfm : firstMaxT x (y :: ys) = firstMaxT y ys := by
        simp [firstMaxT, hc]
      refine ⟨x :: pre, post, ?_, ?_, ?_⟩
      · rw [hfm, List.cons_append, hsplit]
      · intro u hu
        rcases List.mem_cons.mp hu with rfl | hu'
        · rw [hfm]; exact hc
        · rw [hfm]; exact hpre u hu'
      · intro u hu
        rcases List.mem_cons.mp hu with rfl | hu'
        · rw [hfm]; exact Nat.le_of_lt hc
        · rw [hfm]; exact hle u hu'
    · have hfm : firstMaxT x (y :: ys) = x := by
        simp [firstMaxT, hc]
      refine ⟨[], y :: ys, by rw [hfm]; rfl, by simp, ?_⟩
      intro u hu
      rcases List.mem_cons.mp hu with rfl | hu'
      · rw [hfm]
      · rw [hfm]
        exact Nat.le_trans (hle u hu') (Nat.not_lt.mp hc)

/-- C7: on a page holding at least one table, parse_reference_table picks
a table of maximal column count, and among the tables of maximal column
count the one encountered first in document order (every earlier table has
strictly fewer columns). -/
theorem C7_widest_table_first (dfs : List PTable) (hne : dfs ≠ []) :
    ∃ t pre post, parse_reference_table dfs = some t ∧ dfs = pre ++ t :: post ∧
      (∀ u ∈ pre, u.ncols < t.ncols) ∧ (∀ u ∈ dfs, u.ncols ≤ t.ncols) := by
  obtain ⟨x, xs, rfl⟩ := List.exists_cons_of_ne_nil hne
  obtain ⟨pre, post, hsplit, hpre, hle⟩ := firstMaxT_spec x xs
  exact ⟨firstMaxT x xs, pre, post,
    by rw [parse_reference_table, insertionSort_head], hsplit, hpre, hle⟩

/-- Witness for C7 on a list of four tables with a tie on the maximal
column count. -/
theorem C7_widest_table_first_witness :
    ([PTable.mk 2 [], PTable.mk 5 [["a"]], PTable.mk 5 [["b"]], PTable.mk 3 []] :
        List PTable) ≠ [] ∧
      ∃ t pre post,
        parse_reference_table
            [PTable.mk 2 [], PTable.mk 5 [["a"]], PTable.mk 5 [["b"]], PTable.mk 3 []] =
          some t ∧
        [PTable.mk 2 [], PTable.mk 5 [["a"]], PTable.mk 5 [["b"]], PTable.mk 3 []] =
          pre ++ t :: post ∧
        (∀ u ∈ pre, u.ncols < t.ncols) ∧
        (∀ u ∈ [PTable.mk 2 [], PTable.mk 5 [["a"]], PTable.mk 5 [["b"]],
            PTable.mk 3 []], u.ncols ≤ t.ncols) :=
  ⟨by simp,
    C7_widest_table_first
      [PTable.mk 2 [], PTable.mk 5 [["a"]], PTable.mk 5 [["b"]], PTable.mk 3 []]
      (by simp)⟩

/-! ### Claim C8: the nice-axis computation -/

lemma argminAbs_mem (i : ℚ) : ∀ (xs : List ℚ) (x : ℚ), argminAbs i x xs ∈ x :: xs := by
  intro xs
  induction xs with
  | nil => intro x; simp [argminAbs]
  | cons y ys ih =>
    intro x
    have hstep : argminAbs i x (y :: ys) =
        argminAbs i (if |y - i| < |x - i| then y else x) ys := rfl
    rw [hstep]
    rcases List.mem_cons.mp (ih (if |y - i| < |x - i| then y else x)) with h | h
    · rw [h]
      split_ifs
      · exact List.mem_cons_of_mem x (List.mem_cons_self y ys)
      · exact List.mem_cons_self x (y :: ys)
    · exact List.mem_cons_of_mem x (List.mem_cons_of_mem y h)

lemma argminAbs_le (i : ℚ) :
    ∀ (xs : List ℚ) (x a : ℚ), a ∈ x :: xs → |argminAbs i x xs - i| ≤ |a - i| := by
  intro xs
  induction xs with
  | nil =>
    intro x a ha
    rcases List.mem_cons.mp ha with rfl | h
    · exact le_refl _
    · cases h
  | cons y ys ih =>
    intro x a ha
    have hstep : argminAbs i x (y :: ys) =
        argminAbs i (if |y - i| < |x - i| then y else x) ys := rfl
    have hhead : |argminAbs i (if |y - i| < |x - i| then y else x) ys - i| ≤
        |(if |y - i| < |x - i| then y else x) - i| :=
      ih (if |y - i| < |x - i| then y else x) _ (List.mem_cons_self _ _)
    have hx : |(if |y - i| < |x - i| then y else x) - i| ≤ |x - i| := by
      split_ifs with hcmp
      · exact le_of_lt hcmp
      · exact le_refl _
    have hy : |(if |y - i| < |x - i| then y else x) - i| ≤ |y - i| := by
      split_ifs with hcmp
      · exact le_refl _
      · exact not_lt.mp hcmp
    rw [hstep]
    rcases List.mem_cons.mp ha with rfl | hrest
    · exact le_trans hhead hx
    · rcases List.mem_cons.mp hrest with rfl | hys
      · exact le_trans hhead hy
      · exact ih (if |y - i| < |x - i| then y else x) a
          (List.mem_cons_of_mem _ hys)

/-- C8: for a non-degenerate range the chosen step is the candidate
nearest to span / max(2, ticks), vmin and vmax are the floor and ceiling
of the inputs in units of the step (hence whole multiples of it); for a
degenerate range the bounds are first pushed apart symmetrically by
max(1, |min| / 10) and the computation proceeds on the expanded range. -/
theorem C8_nice_axis_spec (mn mx : ℚ) (t : Nat) :
    (mn < mx →
      (nice_axis mn mx t).2.2 ∈ niceSteps ∧
      (∀ s ∈ niceSteps,
        |(nice_axis mn mx t).2.2 - (mx - mn) / ((max 2 t : Nat) : ℚ)| ≤
          |s - (mx - mn) / ((max 2 t : Nat) : ℚ)|) ∧
      (nice_axis mn mx t).1 = ⌊mn / (nice_axis mn mx t).2.2⌋ * (nice_axis mn mx t).2.2 ∧
      (nice_axis mn mx t).2.1 = ⌈mx / (nice_axis mn mx t).2.2⌉ * (nice_axis mn mx t).2.2 ∧
      (∃ k : ℤ, (nice_axis mn mx t).1 = k * (nice_axis mn mx t).2.2) ∧
      (∃ k : ℤ, (nice_axis mn mx t).2.1 = k * (nice_axis mn mx t).2.2)) ∧
    (mn = mx →
      nice_axis mn mx t =
        nice_axis (mn - max 1 (|mn| / 10)) (mx + max 1 (|mn| / 10)) t) := by
  constructor
  · intro hlt
    have hne : ¬ (mn = mx) := ne_of_lt hlt
    have hax : nice_axis mn mx t =
        ((⌊mn / chooseStep mn mx t⌋ : ℤ) * chooseStep mn mx t,
         (⌈mx / chooseStep mn mx t⌉ : ℤ) * chooseStep mn mx t,
         chooseStep mn mx t) := by
      simp only [nice_axis, chooseStep, if_neg hne]
    rw [hax]
    refine ⟨?_, ?_, rfl, rfl, ⟨⌊mn / chooseStep mn mx t⌋, rfl⟩,
      ⟨⌈mx / chooseStep mn mx t⌉, rfl⟩⟩
    · exact argminAbs_mem _ _ _
    · intro s hs
      exact argminAbs_le _ _ _ s hs
  · intro heq
    subst heq
    have hone : (1 : ℚ) ≤ max 1 (|mn| / 10) := le_max_left _ _
    have hne2 : ¬ (mn - max 1 (|mn| / 10) = mn + max 1 (|mn| / 10)) := by
      intro hcontra
      have hpos : (0 : ℚ) < max 1 (|mn| / 10) := lt_of_lt_of_le one_pos hone
      linarith
    simp only [nice_axis]
    split_ifs <;> simp_all

/-- Witness for C8 at the range 1 to 30 with six target ticks. -/
theorem C8_nice_axis_spec_witness :
    (1 : ℚ) < 30 ∧
      ((nice_axis 1 30 6).2.2 ∈ niceSteps ∧
        (∀ s ∈ niceSteps,
          |(nice_axis 1 30 6).2.2 - ((30 : ℚ) - 1) / ((max 2 6 : Nat) : ℚ)| ≤
            |s - ((30 : ℚ) - 1) / ((max 2 6 : Nat) : ℚ)|) ∧
        (nice_axis 1 30 6).1 =
          ⌊(1 : ℚ) / (nice_axis 1 30 6).2.2⌋ * (nice_axis 1 30 6).2.2 ∧
        (nice_axis 1 30 6).2.1 =
          ⌈(30 : ℚ) / (nice_axis 1 30 6).2.2⌉ * (nice_axis 1 30 6).2.2 ∧
        (∃ k : ℤ, (nice_axis 1 30 6).1 = k * (nice_axis 1 30 6).2.2) ∧
        (∃ k : ℤ, (nice_axis 1 30 6).2.1 = k * (nice_axis 1 30 6).2.2)) :=
  ⟨by norm_num, (C8_nice_axis_spec 1 30 6).1 (by norm_num)⟩

/-! ### List minimum and maximum lemmas -/

lemma foldl_min_assoc : ∀ (l : List ℚ) (a b : ℚ),
    l.foldl min (min a b) = min a (l.foldl min b) := by
  intro l
  induction l with
  | nil => intro a b; rfl
  | cons c l ih =>
    intro a b
    show l.foldl min (min (min a b) c) = min a (l.foldl min (min b c))
    rw [min_assoc, ih]

lemma foldl_max_assoc : ∀ (l : List ℚ) (a b : ℚ),
    l.foldl max (max a b) = max a (l.foldl max b) := by
  intro l
  induction l with
  | nil => intro a b; rfl
  | cons c l ih =>
    intro a b
    show l.foldl max (max (max a b) c) = max a (l.foldl max (max b c))
    rw [max_assoc, ih]

lemma listMin_cons (x y : ℚ) (ys : List ℚ) :
    listMin (x :: y :: ys) = min x (listMin (y :: ys)) :=
  foldl_min_assoc ys x y

lemma listMax_cons (x y : ℚ) (ys : List ℚ) :
    listMax (x :: y :: ys) = max x (listMax (y :: ys)) :=
  foldl_max_assoc ys x y

lemma listMin_le : ∀ (l : List ℚ), ∀ x ∈ l, listMin l ≤ x := by
  intro l
  induction l with
  | nil => simp
  | cons a l ih =>
    cases l with
    | nil =>
      intro x hx
      rcases List.mem_cons.mp hx with rfl | hx'
      · exact le_refl _
      · cases hx'
    | cons b l2 =>
      intro x hx
      rw [listMin_cons]
      rcases List.mem_cons.mp hx with rfl | hx'
      · exact min_le_left _ _
      · exact le_trans (min_le_right _ _) (ih x hx')

lemma listMax_ge : ∀ (l : List ℚ), ∀ x ∈ l, x ≤ listMax l := by
  intro l
  induction l with
  | nil => simp
  | cons a l ih =>
    cases l with
    | nil =>
      intro x hx
      rcases List.mem_cons.mp hx with rfl | hx'
      · exact le_refl _
      · cases hx'
    | cons b l2 =>
      intro x hx
      rw [listMax_cons]
      rcases List.mem_cons.mp hx with rfl | hx'
      · exact le_max_left _ _
      · exact le_trans (ih x hx') (le_max_right _ _)

lemma listMin_mem : ∀ (l : List ℚ), l ≠ [] → listMin l ∈ l := by
  intro l
  induction l with
  | nil => intro h; exact absurd rfl h
  | cons a l ih =>
    intro _
    cases l with
    | nil => exact List.mem_cons_self _ _
    | cons b l2 =>
      rw [listMin_cons]
      rcases min_choice a (listMin (b :: l2)) with hm | hm <;> rw [hm]
      · exact List.mem_cons_self _ _
      · exact List.mem_cons_of_mem _ (ih (by simp))

lemma listMax_mem : ∀ (l : List ℚ), l ≠ [] → listMax l ∈ l := by
  intro l
  induction l with
  | nil => intro h; exact absurd rfl h
  | cons a l ih =>
    intro _
    cases l with
    | nil => exact List.mem_cons_self _ _
    | cons b l2 =>
      rw [listMax_cons]
      rcases max_choice a (listMax (b :: l2)) with hm | hm <;> rw [hm]
      · exact List.mem_cons_self _ _
      · exact List.mem_cons_of_mem _ (ih (by simp))

lemma listMin_congr (l l2 : List ℚ) (hne : l ≠ []) (hne2 : l2 ≠ [])
    (h : ∀ x, x ∈ l ↔ x ∈ l2) : listMin l = listMin l2 :=
  le_antisymm (listMin_le l _ ((h _).mpr (listMin_mem l2 hne2)))
    (listMin_le l2 _ ((h _).mp (listMin_mem l hne)))

lemma listMax_congr (l l2 : List ℚ) (hne : l ≠ []) (hne2 : l2 ≠ [])
    (h : ∀ x, x ∈ l ↔ x ∈ l2) : listMax l = listMax l2 :=
  le_antisymm (listMax_ge l2 _ ((h _).mp (listMax_mem l hne)))
    (listMax_ge l _ ((h _).mpr (listMax_mem l2 hne2)))

/-! ### Boundary behaviour of npInterp on sorted knot lists -/

lemma sorted_head_min (p0 : ℚ × ℚ) (rest : List (ℚ × ℚ))
    (hs : (p0 :: rest).Sorted (fun a b => a.1 ≤ b.1)) :
    p0.1 = listMin ((p0 :: rest).map (fun q => q.1)) := by
  refine le_antisymm ?_ (listMin_le _ _ (by simp))
  have hmem := listMin_mem ((p0 :: rest).map (fun q => q.1)) (by simp)
  obtain ⟨q, hq, hq1⟩ := List.mem_map.mp hmem
  rcases List.mem_cons.mp hq with rfl | hq'
  · rw [hq1]
  · rw [← hq1]
    exact List.rel_of_sorted_cons hs q hq'

lemma npInterp_head_val :
    ∀ (rest : List (ℚ × ℚ)) (p0 : ℚ × ℚ),
      (p0 :: rest).Sorted (fun a b => a.1 ≤ b.1) →
      ∃ p ∈ p0 :: rest, p.1 = p0.1 ∧ npInterp p0.1 (p0 :: rest) = p.2 := by
  intro rest
  induction rest with
  | nil => intro p0 _; exact ⟨p0, by simp, rfl, rfl⟩
  | cons q rs ih =>
    intro p0 hs
    have hle : p0.1 ≤ q.1 := List.rel_of_sorted_cons hs q (by simp)
    by_cases hq : q.1 ≤ p0.1
    · have heq : q.1 = p0.1 := le_antisymm hq hle
      have hstep : npInterp p0.1 (p0 :: q :: rs) = npInterp p0.1 (q :: rs) := by
        simp only [npInterp]
        rw [if_neg (lt_irrefl _), if_pos hq]
      obtain ⟨p, hp, hp1, hval⟩ := ih q hs.of_cons
      refine ⟨p, List.mem_cons_of_mem _ hp, by rw [hp1, heq], ?_⟩
      rw [hstep, ← heq]
      exact hval
    · refine ⟨p0, by simp, rfl, ?_⟩
      simp only [npInterp]
      rw [if_neg (lt_irrefl _), if_neg hq, sub_self, mul_zero, zero_div, add_zero]

lemma npInterp_tail_val (v : ℚ) :
    ∀ (rest : List (ℚ × ℚ)) (p0 : ℚ × ℚ),
      (p0 :: rest).Sorted (fun a b => a.1 ≤ b.1) →
      (∀ q ∈ p0 :: rest, q.1 ≤ v) →
      ∃ p ∈ p0 :: rest, p.1 = listMax ((p0 :: rest).map (fun q => q.1)) ∧
        npInterp v (p0 :: rest) = p.2 := by
  intro rest
  induction rest with
  | nil => intro p0 _ _; exact ⟨p0, by simp, rfl, rfl⟩
  | cons q rs ih =>
    intro p0 hs hall
    have hp0 : p0.1 ≤ v := hall p0 (by simp)
    have hq : q.1 ≤ v := hall q (by simp)
    have hstep : npInterp v (p0 :: q :: rs) = npInterp v (q :: rs) := by
      simp only [npInterp]
      rw [if_neg (not_lt.mpr hp0), if_pos hq]
    obtain ⟨p, hp, hp1, hval⟩ :=
      ih q hs.of_cons (fun x hx => hall x (List.mem_cons_of_mem _ hx))
    have hmaxeq : listMax ((p0 :: q :: rs).map (fun q => q.1)) =
        listMax ((q :: rs).map (fun q => q.1)) := by
      show listMax (p0.1 :: (q :: rs).map (fun q => q.1)) = _
      rw [show ((q :: rs).map (fun q => q.1)) = q.1 :: rs.map (fun q => q.1) from rfl,
        listMax_cons]
      refine max_eq_right ?_
      exact le_trans (List.rel_of_sorted_cons hs q (by simp))
        (listMax_ge _ _ (by simp))
    refine ⟨p, List.mem_cons_of_mem _ hp, by rw [hp1, hmaxeq], ?_⟩
    rw [hstep]
    exact hval

lemma ptsOf_facts (df : List CleanRecord) (hne : df ≠ []) :
    ptsOf df ≠ [] ∧ (ptsOf df).Sorted (fun a b => a.1 ≤ b.1) ∧
      (∀ p, p ∈ ptsOf df ↔ p ∈ df.map (fun c => (c.ttmYears, c.ratePct))) ∧
      (∀ x, x ∈ (ptsOf df).map (fun p => p.1) ↔
        x ∈ df.map (fun c => c.ttmYears)) := by
  haveI htot : IsTotal (ℚ × ℚ) (fun a b => a.1 ≤ b.1) := ⟨fun a b => le_total a.1 b.1⟩
  haveI htr : IsTrans (ℚ × ℚ) (fun a b => a.1 ≤ b.1) :=
    ⟨fun a b c hab hbc => le_trans hab hbc⟩
  have hperm : List.Perm (ptsOf df) (df.map (fun c => (c.ttmYears, c.ratePct))) :=
    List.perm_insertionSort _ _
  have hpermx : List.Perm ((ptsOf df).map (fun p => p.1))
      ((df.map (fun c => (c.ttmYears, c.ratePct))).map (fun p => p.1)) :=
    hperm.map _
  refine ⟨?_, List.sorted_insertionSort _ _, fun p => hperm.mem_iff, fun x => ?_⟩
  · intro hcontra
    obtain ⟨c, cs, rfl⟩ := List.exists_cons_of_ne_nil hne
    have : (c.ttmYears, c.ratePct) ∈ ptsOf (c :: cs) :=
      hperm.mem_iff.mpr (by simp)
    rw [hcontra] at this
    cases this
  · rw [hpermx.mem_iff, List.map_map]
    rfl

/-! ### Claim C4: tenors outside the observed range are clamped -/

set_option maxHeartbeats 1000000 in
/-- C4: with at least two distinct observed maturities, a requested tenor
below the minimum observed time-to-maturity is emitted with exactly the
rate observed at the minimum maturity, and one above the maximum with
exactly the rate observed at the maximum maturity; both clamped points
appear in the result, keeping their requested tenor years. -/
theorem C4_boundary_clamping (df : List CleanRecord) (tenors : List (String × ℚ))
    (lab : String) (t : ℚ) (hne : df ≠ [])
    (h2 : 2 ≤ (df.map (fun c => c.ttmYears)).dedup.length)
    (hmem : (lab, t) ∈ tenors) :
    (t < listMin (df.map (fun c => c.ttmYears)) →
      ∃ r, TenorPoint.mk lab t r ∈ interpolate_tenors df tenors ∧
        ∃ c ∈ df, c.ttmYears = listMin (df.map (fun c => c.ttmYears)) ∧
          c.ratePct = r) ∧
    (listMax (df.map (fun c => c.ttmYears)) < t →
      ∃ r, TenorPoint.mk lab t r ∈ interpolate_tenors df tenors ∧
        ∃ c ∈ df, c.ttmYears = listMax (df.map (fun c => c.ttmYears)) ∧
          c.ratePct = r) := by
  obtain ⟨hpne, hsorted, hmemiff, hmemx⟩ := ptsOf_facts df hne
  have hguard : ¬ (df = [] ∨ (df.map (fun c => c.ttmYears)).dedup.length < 2) := by
    push_neg
    exact ⟨hne, h2⟩
  have hout : interpolate_tenors df tenors =
      tenors.map (fun lt => TenorPoint.mk lt.1 lt.2
        (npInterp (npClip lt.2 (listMin ((ptsOf df).map (fun p => p.1)))
          (listMax ((ptsOf df).map (fun p => p.1)))) (ptsOf df))) := by
    unfold interpolate_tenors
    rw [if_neg hguard]
  have hxne : (ptsOf df).map (fun p => p.1) ≠ [] := by
    intro hcontra
    exact hpne (List.map_eq_nil_iff.mp hcontra)
  have hdfxne : df.map (fun c => c.ttmYears) ≠ [] := by
    intro hcontra
    exact hne (List.map_eq_nil_iff.mp hcontra)
  have hmin_eq : listMin ((ptsOf df).map (fun p => p.1)) =
      listMin (df.map (fun c => c.ttmYears)) :=
    listMin_congr _ _ hxne hdfxne hmemx
  have hmax_eq : listMax ((ptsOf df).map (fun p => p.1)) =
      listMax (df.map (fun c => c.ttmYears)) :=
    listMax_congr _ _ hxne hdfxne hmemx
  have hminmax : listMin ((ptsOf df).map (fun p => p.1)) ≤
      listMax ((ptsOf df).map (fun p => p.1)) :=
    listMax_ge _ _ (listMin_mem _ hxne)
  obtain ⟨p0, rest, hp0⟩ := List.exists_cons_of_ne_nil hpne
  constructor
  · intro hlo
    have hlo' : t < listMin ((ptsOf df).map (fun p => p.1)) := by
      rw [hmin_eq]; exact hlo
    have hclip : npClip t (listMin ((ptsOf df).map (fun p => p.1)))
        (listMax ((ptsOf df).map (fun p => p.1))) =
        listMin ((ptsOf df).map (fun p => p.1)) := by
      unfold npClip
      rw [max_eq_right (le_of_lt hlo'), min_eq_right hminmax]
    have hhead : p0.1 = listMin ((ptsOf df).map (fun p => p.1)) := by
      rw [hp0]
      exact sorted_head_min p0 rest (by rw [← hp0]; exact hsorted)
    obtain ⟨p, hp, hp1, hval⟩ :=
      npInterp_head_val rest p0 (by rw [← hp0]; exact hsorted)
    refine ⟨p.2, ?_, ?_⟩
    · rw [hout]
      refine List.mem_map.mpr ⟨(lab, t), hmem, ?_⟩
      rw [hclip, ← hhead, hp0, hval]
    · obtain ⟨c, hc, hcp⟩ := List.mem_map.mp (hmemiff p |>.mp (by rw [hp0]; exact hp))
      refine ⟨c, hc, ?_, ?_⟩
      · have : c.ttmYears = p.1 := by rw [← hcp]
        rw [this, hp1, hhead, hmin_eq]
      · rw [← hcp]
  · intro hhi
    have hhi' : listMax ((ptsOf df).map (fun p => p.1)) < t := by
      rw [hmax_eq]; exact hhi
    have hclip : npClip t (listMin ((ptsOf df).map (fun p => p.1)))
        (listMax ((ptsOf df).map (fun p => p.1))) =
        listMax ((ptsOf df).map (fun p => p.1)) := by
      unfold npClip
      rw [max_eq_left (le_of_lt (lt_of_le_of_lt hminmax hhi')),
        min_eq_left (le_of_lt hhi')]
    have hall : ∀ q ∈ p0 :: rest, q.1 ≤ listMax ((ptsOf df).map (fun p => p.1)) := by
      intro q hq
      refine listMax_ge _ _ ?_
      exact List.mem_map.mpr ⟨q, by rw [hp0]; exact hq, rfl⟩
    obtain ⟨p, hp, hp1, hval⟩ :=
      npInterp_tail_val (listMax ((ptsOf df).map (fun p => p.1))) rest p0
        (by rw [← hp0]; exact hsorted) hall
    have hval' : npInterp (listMax ((p0 :: rest).map (fun p => p.1)))
        (p0 :: rest) = p.2 := by
      rw [hp0] at hval
      exact hval
    refine ⟨p.2, ?_, ?_⟩
    · rw [hout]
      refine List.mem_map.mpr ⟨(lab, t), hmem, ?_⟩
      rw [hclip, hp0, hval']
    · obtain ⟨c, hc, hcp⟩ := List.mem_map.mp (hmemiff p |>.mp (by rw [hp0]; exact hp))
      refine ⟨c, hc, ?_, ?_⟩
      · have : c.ttmYears = p.1 := by rw [← hcp]
        rw [this, hp1, ← hp0, hmax_eq]
      · rw [← hcp]

/-- Witness for C4: a two-point curve with maturities 1 and 5 and rates 2
and 3, requesting the half-year tenor (below the minimum). -/
theorem C4_boundary_clamping_witness :
    ([CleanRecord.mk 0 0 1 2, CleanRecord.mk 0 0 5 3] : List CleanRecord) ≠ [] ∧
      2 ≤ (([CleanRecord.mk 0 0 1 2, CleanRecord.mk 0 0 5 3] : List CleanRecord).map
        (fun c => c.ttmYears)).dedup.length ∧
      ("6 mois", (1 : ℚ)/2) ∈ [("6 mois", (1 : ℚ)/2)] ∧
      ((1 : ℚ)/2 < listMin (([CleanRecord.mk 0 0 1 2, CleanRecord.mk 0 0 5 3] :
          List CleanRecord).map (fun c => c.ttmYears)) →
        ∃ r, TenorPoint.mk "6 mois" ((1 : ℚ)/2) r ∈
            interpolate_tenors [CleanRecord.mk 0 0 1 2, CleanRecord.mk 0 0 5 3]
              [("6 mois", (1 : ℚ)/2)] ∧
          ∃ c ∈ ([CleanRecord.mk 0 0 1 2, CleanRecord.mk 0 0 5 3] : List CleanRecord),
            c.ttmYears = listMin (([CleanRecord.mk 0 0 1 2, CleanRecord.mk 0 0 5 3] :
              List CleanRecord).map (fun c => c.ttmYears)) ∧ c.ratePct = r) :=
  ⟨by simp, by norm_num [List.dedup_cons_of_not_mem], by simp,
    (C4_boundary_clamping [CleanRecord.mk 0 0 1 2, CleanRecord.mk 0 0 5 3]
      [("6 mois", (1 : ℚ)/2)] "6 mois" ((1 : ℚ)/2) (by simp)
      (by norm_num [List.dedup_cons_of_not_mem]) (by simp)).1⟩

/-! ### Claim C10: emitted tenor rows keep the requested tenor years -/

/-- C10: on a curve with at least two distinct maturities, the rows that
_interpolate_tenors emits carry exactly the labels and the original
(unclipped) tenor years of the fixed mapping, in its declared order. -/
theorem C10_tenor_years_unclipped (df : List CleanRecord)
    (tenors : List (String × ℚ)) (hne : df ≠ [])
    (h2 : 2 ≤ (df.map (fun c => c.ttmYears)).dedup.length) :
    (interpolate_tenors df tenors).map (fun p => (p.label, p.tenorYears)) = tenors := by
  have hguard : ¬ (df = [] ∨ (df.map (fun c => c.ttmYears)).dedup.length < 2) := by
    push_neg
    exact ⟨hne, h2⟩
  unfold interpolate_tenors
  rw [if_neg hguard, List.map_map]
  show tenors.map (fun lt : String × ℚ => (lt.1, lt.2)) = tenors
  simp

/-! ### Claim C1: what the two cleaners filter out -/

lemma parseRate_nonneg (l : List Char) : 0 ≤ parseRate l := by
  cases h : l.splitOn '.' with
  | nil => simp [parseRate, h]
  | cons a rest =>
    cases rest with
    | nil =>
      simp only [parseRate, h]
      positivity
    | cons b rest2 =>
      cases rest2 with
      | nil =>
        simp only [parseRate, h]
        positivity
      | cons c rest3 => simp [parseRate, h]

lemma cleanRows_mem (pdate : String → Option Int) (refd : Int)
    (rows : List RawRecord) (c : CleanRecord) (hc : c ∈ cleanRows pdate refd rows) :
    0 ≤ c.ratePct ∧ ∃ r ∈ rows, pdate r.maturity = some c.maturityDate := by
  obtain ⟨r, hr, hmap⟩ := List.mem_filterMap.mp hc
  cases hpd : pdate r.maturity with
  | none => rw [hpd] at hmap; cases hmap
  | some m =>
    rw [hpd] at hmap
    have hceq : CleanRecord.mk m refd (((m - refd : Int) : ℚ) / 365)
        (parseRate (normRate r.rate)) = c :=
      Option.some.inj hmap
    refine ⟨?_, r, hr, ?_⟩
    · rw [← hceq]
      exact parseRate_nonneg _
    · rw [← hceq, hpd]

/-- C1 counterexample: the plotter's inline cleaning keeps a row whose
maturity parses before the reference date, emitting a record with a
negative time to maturity, contrary to the claim that both cleaning
implementations drop such rows.  The date parser used here maps the
maturity string to day 0 and the reference string to day 365. -/
theorem C1_plot_negative_ttm :
    ∃ out, plotClean
        (fun s => if s = "m" then some 0 else if s = "r" then some 365 else none)
        [RawRecord.mk "m" "" "3" "r"] = some out ∧
      ∃ c ∈ out, c.ttmYears < 0 := by
  refine ⟨[CleanRecord.mk 0 365 (-1) 3], ?_,
    CleanRecord.mk 0 365 (-1) 3, by simp, by norm_num⟩
  have hfil : ([RawRecord.mk "m" "" "3" "r"] : List RawRecord).filter
      (fun r => rateMatches (normRate r.rate)) = [RawRecord.mk "m" "" "3" "r"] := by
    decide
  have hnr : normRate "3" = ['3'] := by decide
  have hpr : parseRate (normRate "3") = 3 := by
    rw [hnr]
    have hsp : (['3'] : List Char).splitOn '.' = [['3']] := by decide
    simp [parseRate, hsp, natOfDigits]
  rw [plotClean, hfil]
  simp only [cleanRows, List.filterMap_cons, List.filterMap_nil]
  rw [if_neg (by decide : ¬("r" : String) = "m")]
  norm_num [hpr]

/-- C1 amended: the Excel exporter's cleaner emits no record with a
negative rate, a negative time to maturity, or an unparsed maturity date;
the plotter's inline cleaning emits no record with a negative rate or an
unparsed maturity date, but does not filter negative times to maturity. -/
theorem C1_cleaners_drop_invalid :
    (∀ (pdate : String → Option Int) (rows : List RawRecord)
        (out : List CleanRecord), read_and_clean pdate rows = some out →
      ∀ c ∈ out, 0 ≤ c.ratePct ∧ 0 ≤ c.ttmYears ∧
        ∃ r ∈ rows, pdate r.maturity = some c.maturityDate) ∧
    (∀ (pdate : String → Option Int) (rows : List RawRecord)
        (out : List CleanRecord), plotClean pdate rows = some out →
      ∀ c ∈ out, 0 ≤ c.ratePct ∧
        ∃ r ∈ rows, pdate r.maturity = some c.maturityDate) := by
  constructor
  · intro pdate rows out hout c hcmem
    cases hr1 : rows.filter (fun r => rateMatches (normRate r.rate)) with
    | nil =>
      simp [read_and_clean, hr1] at hout
    | cons r0 rest =>
      simp only [read_and_clean, hr1] at hout
      cases hpd : pdate r0.ref_date with
      | none =>
        simp only [hpd] at hout
        have : out = [] := (Option.some.inj hout).symm
        rw [this] at hcmem
        cases hcmem
      | some refd =>
        simp only [hpd] at hout
        have hform := (Option.some.inj hout).symm
        rw [hform] at hcmem
        have hfil := List.mem_filter.mp hcmem
        have httm : (0 : ℚ) ≤ c.ttmYears := of_decide_eq_true hfil.2
        have hsortmem : c ∈ cleanRows pdate refd (r0 :: rest) :=
          (List.perm_insertionSort _ _).mem_iff.mp hfil.1
        obtain ⟨hrate, r, hrmem, hpdr⟩ := cleanRows_mem pdate refd _ c hsortmem
        refine ⟨hrate, httm, r, ?_, hpdr⟩
        rw [← hr1] at hrmem
        exact (List.mem_filter.mp hrmem).1
  · intro pdate rows out hout c hcmem
    cases hr1 : rows.filter (fun r => rateMatches (normRate r.rate)) with
    | nil =>
      simp [plotClean, hr1] at hout
    | cons r0 rest =>
      simp only [plotClean, hr1] at hout
      cases hpd : pdate r0.ref_date with
      | none =>
        simp only [hpd] at hout
        have : out = [] := (Option.some.inj hout).symm
        rw [this] at hcmem
        cases hcmem
      | some refd =>
        simp only [hpd] at hout
        have hform := (Option.some.inj hout).symm
        rw [hform] at hcmem
        have hsortmem : c ∈ cleanRows pdate refd (r0 :: rest) :=
          (List.perm_insertionSort _ _).mem_iff.mp hcmem
        obtain ⟨hrate, r, hrmem, hpdr⟩ := cleanRows_mem pdate refd _ c hsortmem
        refine ⟨hrate, r, ?_, hpdr⟩
        rw [← hr1] at hrmem
        exact (List.mem_filter.mp hrmem).1

/-- Witness for C1 on a one-row batch whose maturity follows the reference
date, cleaned by the Excel exporter's cleaner. -/
theorem C1_cleaners_drop_invalid_witness :
    read_and_clean
        (fun s => if s = "m" then some 365 else if s = "r" then some 0 else none)
        [RawRecord.mk "m" "" "3" "r"] = some [CleanRecord.mk 365 0 1 3] ∧
      ∀ c ∈ [CleanRecord.mk 365 0 (1 : ℚ) (3 : ℚ)],
        0 ≤ c.ratePct ∧ 0 ≤ c.ttmYears ∧
          ∃ r ∈ [RawRecord.mk "m" "" "3" "r"],
            (fun s => if s = "m" then some 365 else
              if s = "r" then some 0 else none) r.maturity =
              some c.maturityDate := by
  have hfil : ([RawRecord.mk "m" "" "3" "r"] : List RawRecord).filter
      (fun r => rateMatches (normRate r.rate)) = [RawRecord.mk "m" "" "3" "r"] := by
    decide
  have hnr : normRate "3" = ['3'] := by decide
  have hpr : parseRate (normRate "3") = 3 := by
    rw [hnr]
    have hsp : (['3'] : List Char).splitOn '.' = [['3']] := by decide
    simp [parseRate, hsp, natOfDigits]
  have heq : read_and_clean
      (fun s => if s = "m" then some 365 else if s = "r" then some 0 else none)
      [RawRecord.mk "m" "" "3" "r"] = some [CleanRecord.mk 365 0 1 3] := by
    rw [read_and_clean, hfil]
    simp only [cleanRows, List.filterMap_cons, List.filterMap_nil]
    rw [if_neg (by decide : ¬("r" : String) = "m")]
    norm_num [hpr]
  exact ⟨heq, C1_cleaners_drop_invalid.1
    (fun s => if s = "m" then some 365 else if s = "r" then some 0 else none)
    [RawRecord.mk "m" "" "3" "r"] [CleanRecord.mk 365 0 1 3] heq⟩

/-- Witness for C10 on a two-point curve and the full default mapping. -/
theorem C10_tenor_years_unclipped_witness :
    ([CleanRecord.mk 0 0 1 2, CleanRecord.mk 0 0 5 3] : List CleanRecord) ≠ [] ∧
      2 ≤ (([CleanRecord.mk 0 0 1 2, CleanRecord.mk 0 0 5 3] : List CleanRecord).map
        (fun c => c.ttmYears)).dedup.length ∧
      (interpolate_tenors [CleanRecord.mk 0 0 1 2, CleanRecord.mk 0 0 5 3]
          DEFAULT_TENORS_YEARS).map (fun p => (p.label, p.tenorYears)) =
        DEFAULT_TENORS_YEARS :=
  ⟨by simp, by norm_num [List.dedup_cons_of_not_mem],
    C10_tenor_years_unclipped [CleanRecord.mk 0 0 1 2, CleanRecord.mk 0 0 5 3]
      DEFAULT_TENORS_YEARS (by simp) (by norm_num [List.dedup_cons_of_not_mem])⟩

end BKAM
